import Mathlib

/-!
Shallow embedding of `taimio_report.py` (the report-generation engine of the
taimio-report repository) together with theorems checking the specification's
claims against it.

Modelling conventions:
* Python floats are modelled as exact rationals (`ℚ`).
* Python's `datetime.date` values are modelled by `PyDate`; the constructor
  validation of `datetime.date` (year 1–9999, month 1–12, day within the
  month) is modelled by `date_new` returning `Option PyDate`.
* Python dicts with string keys are modelled as association lists in
  insertion order (`StrDict`), with assignment replacing the value in place.
* `re.match(DATE_REGEX, s)` is modelled by a character-level matcher over
  `s.toList`, restricted to ASCII digits; Python's `$` anchor also matches
  just before one trailing newline, which the model reproduces.
* Raised-and-caught `ValueError` paths are modelled with `Option`/`Except`.
-/

namespace TaimioReport

/-- Calendar date as used by Python `datetime.date` values. -/
structure PyDate where
  year : Nat
  month : Nat
  day : Nat
  deriving DecidableEq, Repr

/-- Python `date` comparison: lexicographic on (year, month, day). -/
def dateLe (a b : PyDate) : Bool :=
  a.year < b.year ||
    (a.year = b.year &&
      (a.month < b.month || (a.month = b.month && a.day ≤ b.day)))

/-- The `calendar.isleap` function from the Python standard library,
used by `calendar.monthrange`. -/
def is_leap (y : Nat) : Bool :=
  y % 4 = 0 && (y % 100 ≠ 0 || y % 400 = 0)

/-- Number of days of a month as returned by `calendar.monthrange(y, m)[1]`
(source line 61); only ever consulted for months 1–12. -/
def days_in_month (y m : Nat) : Nat :=
  if m = 2 then (if is_leap y then 29 else 28)
  else if m = 4 ∨ m = 6 ∨ m = 9 ∨ m = 11 then 30
  else 31

/-- The `datetime.date(y, m, d)` constructor: raises `ValueError` unless
1 ≤ y ≤ 9999 (MINYEAR/MAXYEAR), 1 ≤ m ≤ 12 and 1 ≤ d ≤ days in the month. -/
def date_new (y m d : Nat) : Option PyDate :=
  if 1 ≤ y ∧ y ≤ 9999 ∧ 1 ≤ m ∧ m ≤ 12 ∧ 1 ≤ d ∧ d ≤ days_in_month y m then
    some ⟨y, m, d⟩
  else none

/-- `get_last_date_of_month` (source lines 59–61). -/
def get_last_date_of_month (y m : Nat) : Option PyDate :=
  date_new y m (days_in_month y m)

/-- `get_last_date_of_year` (source lines 64–65). -/
def get_last_date_of_year (y : Nat) : Option PyDate :=
  get_last_date_of_month y 12

/-- ASCII decimal digit, the embedding of the regex class `\d`
(code points 48–57). -/
def is_digit_char (c : Char) : Bool :=
  48 ≤ c.toNat && c.toNat ≤ 57

/-- Value of a digit string, as computed by Python `int`. -/
def digitsToNat (cs : List Char) : Nat :=
  cs.foldl (fun n c => 10 * n + (c.toNat - 48)) 0

/-- The regex alternative `0\d|1[0-2]` for the month group
(code points: 48 = `0`, 49 = `1`, 50 = `2`). -/
def month_chars (c1 c2 : Char) : Bool :=
  (c1.toNat = 48 && is_digit_char c2) ||
    (c1.toNat = 49 && (48 ≤ c2.toNat && c2.toNat ≤ 50))

/-- The regex alternative `[0-2]\d|3[0-1]` for the day group
(code points: 48 = `0`, 50 = `2`, 51 = `3`). -/
def day_chars (c1 c2 : Char) : Bool :=
  (48 ≤ c1.toNat && c1.toNat ≤ 50 && is_digit_char c2) ||
    (c1.toNat = 51 && (c2.toNat = 48 || c2.toNat = 49))

/-- Matcher for the body of
`DATE_REGEX = r'^(\d+)(?:-(0\d|1[0-2])(?:-([0-2]\d|3[0-1]))?)?$'`
against a full character list, returning the three captured groups the way
`parse_date` converts them (`int(s) if s else None`). -/
def match_date_regex (cs : List Char) : Option (Nat × Option Nat × Option Nat) :=
  let ys := cs.takeWhile is_digit_char
  if ys.isEmpty then none
  else
    match cs.dropWhile is_digit_char with
    | [] => some (digitsToNat ys, none, none)
    | c :: rest =>
      if c = '-' then
        match rest with
        | m1 :: m2 :: rest2 =>
          if month_chars m1 m2 then
            match rest2 with
            | [] => some (digitsToNat ys, some (digitsToNat [m1, m2]), none)
            | c2 :: rest3 =>
              if c2 = '-' then
                match rest3 with
                | d1 :: d2 :: rest4 =>
                  if day_chars d1 d2 && rest4.isEmpty then
                    some (digitsToNat ys, some (digitsToNat [m1, m2]),
                      some (digitsToNat [d1, d2]))
                  else none
                | _ => none
              else none
          else none
        | _ => none
      else none

/-- `parse_date` (source lines 19–24): `re.match` of `DATE_REGEX`; Python's
`$` also matches just before a newline that ends the string. -/
def parse_date (s : String) : Option (Nat × Option Nat × Option Nat) :=
  match match_date_regex s.toList with
  | some r => some r
  | none =>
    if s.toList.getLast? = some '\n' then
      match_date_regex s.toList.dropLast
    else none

/-- Python `x or d` for an optional integer `x`: both `None` and `0` are
falsy (source line 151 uses `month or 1` and `day or 1`). -/
def py_or (x : Option Nat) (d : Nat) : Nat :=
  match x with
  | none => d
  | some n => if n = 0 then d else n

/-- The `sys.exit('Invalid date {}...')` path of `main` (source line 161),
modelled as an error value carrying the string interpolated into the
message. -/
structure InvalidDateError where
  shown : String
  deriving DecidableEq, Repr

/-- End-date computation of `main` (source lines 154–159): `if not month`
use the last date of the year, `elif not day` the last date of the month,
else `datetime.date(year, month, day)`. -/
def compute_end_date (y : Nat) (m d : Option Nat) : Option PyDate :=
  match m with
  | none => get_last_date_of_year y
  | some 0 => get_last_date_of_year y
  | some mv =>
    match d with
    | none => get_last_date_of_month y mv
    | some 0 => get_last_date_of_month y mv
    | some dv => date_new y mv dv

/-- Date-range resolution of `main` (source lines 149–161): parse the first
date string and build the start date from it, optionally re-parse the second
date string, compute the end date, and on any `ValueError` exit with the
message formatting `sys.argv[3]` (the first date string). -/
def resolve_date_range (s1 : String) (s2 : Option String) :
    Except InvalidDateError (PyDate × PyDate) :=
  match parse_date s1 with
  | none => Except.error ⟨s1⟩
  | some (y1, m1, d1) =>
    match date_new y1 (py_or m1 1) (py_or d1 1) with
    | none => Except.error ⟨s1⟩
    | some start_date =>
      match (match s2 with
             | none => some (y1, m1, d1)
             | some s => parse_date s) with
      | none => Except.error ⟨s1⟩
      | some (y, m, d) =>
        match compute_end_date y m d with
        | none => Except.error ⟨s1⟩
        | some end_date => Except.ok (start_date, end_date)

/-- An offset-aware timestamp (an `arrow` value): the report pipeline only
uses its calendar date (`.date()`) and its absolute instant for
subtraction, modelled as seconds. -/
structure Arrow where
  dateOf : PyDate
  seconds : ℚ
  deriving DecidableEq

/-- An activity record (source lines 46–56). -/
structure Activity where
  title : String
  tags : List String
  started_at : Arrow
  finished_at : Arrow
  deriving DecidableEq

/-- `calculate_activity_duration_hours` (source lines 93–95). -/
def calculate_activity_duration_hours (a : Activity) : ℚ :=
  (a.finished_at.seconds - a.started_at.seconds) / (60 * 60)

/-- A Python dict with string keys and values, in insertion order. -/
abbrev StrDict := List (String × String)

/-- Python `d[k]` lookup (first — and only — binding of the key). -/
def dictLookup (d : StrDict) (k : String) : Option String :=
  match d with
  | [] => none
  | (k0, v0) :: rest => if k0 = k then some v0 else dictLookup rest k

/-- Python `d[k] = v`: replace the value of an existing key in place,
otherwise append a new binding. -/
def dictInsert (d : StrDict) (k v : String) : StrDict :=
  match d with
  | [] => [(k, v)]
  | (k0, v0) :: rest =>
    if k0 = k then (k0, v) :: rest else (k0, v0) :: dictInsert rest k v

/-- The tag loop of `get_activity_project` (source lines 87–90). -/
def find_tag_project (tags : List String) (tag_projects : StrDict) :
    Option String :=
  match tags with
  | [] => none
  | t :: ts =>
    match dictLookup tag_projects t with
    | some p => some p
    | none => find_tag_project ts tag_projects

/-- `get_activity_project` (source lines 86–90): first tag of the activity
present in the mapping wins; `None` if no tag is present. -/
def get_activity_project (a : Activity) (tag_projects : StrDict) :
    Option String :=
  find_tag_project a.tags tag_projects

/-- `get_activity_project(activity, tag_projects) or 'Other'` as used at the
call sites (source lines 107 and 119): Python `or` treats both `None` and
the empty string as falsy. -/
def resolved_project (a : Activity) (tag_projects : StrDict) : String :=
  match get_activity_project a tag_projects with
  | none => "Other"
  | some p => if p = "" then "Other" else p

/-- One step of `group_activities_by_date` (source lines 99–101): append
the activity to the bucket of its start date, creating the bucket at the
end on first encounter (`defaultdict(list)` insertion order). -/
def insert_by_date (m : List (PyDate × List Activity)) (a : Activity) :
    List (PyDate × List Activity) :=
  match m with
  | [] => [(a.started_at.dateOf, [a])]
  | (k, v) :: rest =>
    if k = a.started_at.dateOf then (k, v ++ [a]) :: rest
    else (k, v) :: insert_by_date rest a

/-- Comparison used by `OrderedDict(sorted(dates.items()))`: tuples compare
by their first component (the date); keys are distinct. -/
def pairDateLe (x y : PyDate × List Activity) : Bool :=
  dateLe x.1 y.1

/-- `group_activities_by_date` (source lines 98–102). -/
def group_activities_by_date (acts : List Activity) :
    List (PyDate × List Activity) :=
  (acts.foldl insert_by_date []).mergeSort pairDateLe

/-- Python string comparison: lexicographic by code point. -/
def chars_le : List Char → List Char → Bool
  | [], _ => true
  | _ :: _, [] => false
  | a :: as, b :: bs =>
    if a.toNat < b.toNat then true
    else if b.toNat < a.toNat then false
    else chars_le as bs

/-- Python `s <= t` on strings. -/
def strLe (s t : String) : Bool :=
  chars_le s.toList t.toList

/-- Python `sorted({... for ...})`: the distinct values, sorted ascending. -/
def sorted_string_set (l : List String) : List String :=
  l.dedup.mergeSort strLe

/-- `generate_day_report` (source lines 105–109): one row per start date in
ascending order, carrying the date's activities and the sorted set of their
resolved projects. -/
def generate_day_report (acts : List Activity) (tag_projects : StrDict) :
    List (PyDate × List Activity × List String) :=
  (group_activities_by_date acts).map
    (fun g =>
      (g.1, g.2,
        sorted_string_set (g.2.map (fun a => resolved_project a tag_projects))))

/-- Python 3 `round()`: nearest integer, ties to the even integer. -/
def py_round (q : ℚ) : ℤ :=
  if q - ⌊q⌋ < 1/2 then ⌊q⌋
  else if 1/2 < q - ⌊q⌋ then ⌊q⌋ + 1
  else if ⌊q⌋ % 2 = 0 then ⌊q⌋ else ⌊q⌋ + 1

/-- Python `str()` of the float `k / 2`: sign, integer part, one decimal
digit (`0` or `5`). -/
def str_half (k : ℤ) : String :=
  (if k < 0 then "-" else "") ++ toString (k.natAbs / 2) ++ "." ++
    (if k.natAbs % 2 = 0 then "0" else "5")

/-- `format_hours` (source lines 131–132): `str(round(number * 2) / 2) + 'h'`. -/
def format_hours (q : ℚ) : String :=
  str_half (py_round (q * 2)) ++ "h"

/-- `sum(calculate_activity_duration_hours(a) for a in activities)`. -/
def sum_durations (acts : List Activity) : ℚ :=
  (acts.map calculate_activity_duration_hours).sum

/-- The `total_hours` accumulation of day mode in `main`
(source lines 171–177). -/
def day_report_total (acts : List Activity) (tag_projects : StrDict) : ℚ :=
  (generate_day_report acts tag_projects).foldl
    (fun acc r => acc + sum_durations r.2.1) 0

/-- The final `print('Total:', format_hours(total_hours))` of day mode
(source line 178). -/
def day_report_total_line (acts : List Activity) (tag_projects : StrDict) :
    String :=
  "Total: " ++ format_hours (day_report_total acts tag_projects)

/-- Python `line.split(c, 1)` when `c` occurs in the line: the parts before
and after the first occurrence; `none` when `c` does not occur. -/
def split_once (c : Char) : List Char → Option (List Char × List Char)
  | [] => none
  | x :: xs =>
    if x = c then some ([], xs)
    else (split_once c xs).map (fun p => (x :: p.1, p.2))

/-- Python whitespace test for `str.strip` (ASCII subset). -/
def is_space_char (c : Char) : Bool :=
  c = ' ' || c = '\t' || c = '\n' || c = '\r'

/-- Python `s.strip()`: remove leading and trailing whitespace. -/
def py_strip (cs : List Char) : String :=
  String.mk (((cs.dropWhile is_space_char).reverse.dropWhile is_space_char).reverse)

/-- The body of the `load_projects` loop (source lines 125–127):
`tag, project = line.split('=', 1)` raises `ValueError` on a line without
`=`; otherwise the stripped tag is bound to the stripped project by dict
assignment. -/
def load_step (tp : StrDict) (line : String) : Option StrDict :=
  match split_once '=' line.toList with
  | none => none
  | some (t, p) => some (dictInsert tp (py_strip t) (py_strip p))

/-- `load_projects` (source lines 122–128) over the list of lines of the
file, starting from the empty dict. -/
def load_projects (lines : List String) : Option StrDict :=
  lines.foldlM load_step []

/-! ### Order facts about the comparison functions -/

theorem dateLe_trans (a b c : PyDate) (hab : dateLe a b = true)
    (hbc : dateLe b c = true) : dateLe a c = true := by
  simp only [dateLe, Bool.or_eq_true, Bool.and_eq_true, decide_eq_true_eq,
    beq_iff_eq] at hab hbc ⊢
  omega

theorem dateLe_total (a b : PyDate) : (dateLe a b || dateLe b a) = true := by
  simp only [dateLe, Bool.or_eq_true, Bool.and_eq_true, decide_eq_true_eq,
    beq_iff_eq]
  omega

theorem pairDateLe_trans (a b c : PyDate × List Activity)
    (hab : pairDateLe a b = true) (hbc : pairDateLe b c = true) :
    pairDateLe a c = true :=
  dateLe_trans a.1 b.1 c.1 hab hbc

theorem pairDateLe_total (a b : PyDate × List Activity) :
    (pairDateLe a b || pairDateLe b a) = true :=
  dateLe_total a.1 b.1

theorem chars_le_total (a : List Char) : ∀ b : List Char,
    (chars_le a b || chars_le b a) = true := by
  induction a with
  | nil => intro b; simp [chars_le]
  | cons x xs ih =>
    intro b
    cases b with
    | nil => simp [chars_le]
    | cons y ys =>
      rcases Nat.lt_trichotomy x.toNat y.toNat with h | h | h
      · simp [chars_le, h]
      · simp only [chars_le, h, lt_irrefl, if_false, if_neg (lt_irrefl y.toNat)]
        exact ih ys
      · simp [chars_le, h, Nat.lt_asymm h]

theorem chars_le_trans (a : List Char) : ∀ b c : List Char,
    chars_le a b = true → chars_le b c = true → chars_le a c = true := by
  induction a with
  | nil => intro b c _ _; simp [chars_le]
  | cons x xs ih =>
    intro b c hab hbc
    cases b with
    | nil => simp [chars_le] at hab
    | cons y ys =>
      cases c with
      | nil => simp [chars_le] at hbc
      | cons z zs =>
        simp only [chars_le] at hab hbc ⊢
        by_cases h1 : x.toNat < y.toNat
        · by_cases h2 : y.toNat < z.toNat
          · have h5 : x.toNat < z.toNat := lt_trans h1 h2
            simp [h5]
          · by_cases h3 : z.toNat < y.toNat
            · rw [if_neg h2, if_pos h3] at hbc
              exact absurd hbc (by simp)
            · have hyz : y.toNat = z.toNat :=
                le_antisymm (not_lt.mp h3) (not_lt.mp h2)
              have h5 : x.toNat < z.toNat := hyz ▸ h1
              simp [h5]
        · by_cases h4 : y.toNat < x.toNat
          · rw [if_neg h1, if_pos h4] at hab
            exact absurd hab (by simp)
          · have hxy : x.toNat = y.toNat :=
              le_antisymm (not_lt.mp h4) (not_lt.mp h1)
            rw [if_neg h1, if_neg h4] at hab
            by_cases h2 : y.toNat < z.toNat
            · have h5 : x.toNat < z.toNat := hxy ▸ h2
              simp [h5]
            · by_cases h3 : z.toNat < y.toNat
              · rw [if_neg h2, if_pos h3] at hbc
                exact absurd hbc (by simp)
              · have hyz : y.toNat = z.toNat :=
                  le_antisymm (not_lt.mp h3) (not_lt.mp h2)
                rw [if_neg h2, if_neg h3] at hbc
                have hxz : ¬ x.toNat < z.toNat := by omega
                have hzx : ¬ z.toNat < x.toNat := by omega
                rw [if_neg hxz, if_neg hzx]
                exact ih ys zs hab hbc

theorem strLe_trans (a b c : String) (hab : strLe a b = true)
    (hbc : strLe b c = true) : strLe a c = true :=
  chars_le_trans a.toList b.toList c.toList hab hbc

theorem strLe_total (a b : String) : (strLe a b || strLe b a) = true :=
  chars_le_total a.toList b.toList

/-! ### Grouping lemmas -/

/-- Reading a date's bucket out of the association list built by
`group_activities_by_date`. -/
def lookup_group : List (PyDate × List Activity) → PyDate → List Activity
  | [], _ => []
  | (k, v) :: rest, d => if k = d then v else lookup_group rest d

/-- The keys of a grouped association list. -/
def group_keys (m : List (PyDate × List Activity)) : List PyDate :=
  m.map Prod.fst

@[simp] theorem group_keys_nil : group_keys [] = [] := rfl

@[simp] theorem group_keys_cons (k : PyDate) (v : List Activity)
    (rest : List (PyDate × List Activity)) :
    group_keys ((k, v) :: rest) = k :: group_keys rest := rfl

theorem lookup_group_insert (m : List (PyDate × List Activity)) (a : Activity)
    (d : PyDate) :
    lookup_group (insert_by_date m a) d =
      if a.started_at.dateOf = d then lookup_group m d ++ [a]
      else lookup_group m d := by
  induction m with
  | nil =>
    by_cases h : a.started_at.dateOf = d <;>
      simp [insert_by_date, lookup_group, h]
  | cons kv rest ih =>
    obtain ⟨k, v⟩ := kv
    by_cases hk : k = a.started_at.dateOf
    · subst hk
      by_cases hd : a.started_at.dateOf = d
      · subst hd
        simp [insert_by_date, lookup_group]
      · simp [insert_by_date, lookup_group, hd]
    · by_cases hd : k = d
      · subst hd
        have hd2 : ¬ a.started_at.dateOf = k := fun h => hk h.symm
        simp [insert_by_date, lookup_group, hk, hd2]
      · simp [insert_by_date, lookup_group, hk, hd, ih]

theorem lookup_group_foldl (acts : List Activity) :
    ∀ m : List (PyDate × List Activity), ∀ d : PyDate,
    lookup_group (acts.foldl insert_by_date m) d =
      lookup_group m d ++ acts.filter (fun a => a.started_at.dateOf = d) := by
  induction acts with
  | nil => intro m d; simp
  | cons a as ih =>
    intro m d
    rw [List.foldl_cons, ih, lookup_group_insert]
    by_cases h : a.started_at.dateOf = d
    · simp [List.filter_cons, h]
    · simp [List.filter_cons, h]

theorem group_keys_insert_mem (m : List (PyDate × List Activity)) (a : Activity)
    (h : a.started_at.dateOf ∈ group_keys m) :
    group_keys (insert_by_date m a) = group_keys m := by
  induction m with
  | nil => simp at h
  | cons kv rest ih =>
    obtain ⟨k, v⟩ := kv
    by_cases hk : k = a.started_at.dateOf
    · simp [insert_by_date, hk]
    · have hmem : a.started_at.dateOf ∈ group_keys rest := by
        rcases List.mem_cons.mp (by simpa using h) with h1 | h1
        · exact absurd h1.symm hk
        · exact h1
      simp [insert_by_date, hk, ih hmem]

theorem group_keys_insert_not_mem (m : List (PyDate × List Activity))
    (a : Activity) (h : a.started_at.dateOf ∉ group_keys m) :
    group_keys (insert_by_date m a) = group_keys m ++ [a.started_at.dateOf] := by
  induction m with
  | nil => simp [insert_by_date]
  | cons kv rest ih =>
    obtain ⟨k, v⟩ := kv
    have hk : ¬ k = a.started_at.dateOf := by
      intro he
      exact h (by simp [he])
    have hrest : a.started_at.dateOf ∉ group_keys rest := by
      intro hmem
      exact h (by simp [hmem])
    simp [insert_by_date, hk, ih hrest]

theorem group_keys_insert_nodup (m : List (PyDate × List Activity))
    (a : Activity) (h : (group_keys m).Nodup) :
    (group_keys (insert_by_date m a)).Nodup := by
  by_cases hmem : a.started_at.dateOf ∈ group_keys m
  · rw [group_keys_insert_mem m a hmem]; exact h
  · rw [group_keys_insert_not_mem m a hmem]
    simp [List.nodup_append, h, hmem]

theorem group_keys_foldl_nodup (acts : List Activity) :
    ∀ m : List (PyDate × List Activity), (group_keys m).Nodup →
    (group_keys (acts.foldl insert_by_date m)).Nodup := by
  induction acts with
  | nil => intro m h; simpa using h
  | cons a as ih =>
    intro m h
    exact ih (insert_by_date m a) (group_keys_insert_nodup m a h)

theorem lookup_group_of_mem (m : List (PyDate × List Activity)) (d : PyDate)
    (v : List Activity) (hnd : (group_keys m).Nodup) (hm : (d, v) ∈ m) :
    lookup_group m d = v := by
  induction m with
  | nil => simp at hm
  | cons kv rest ih =>
    obtain ⟨k, w⟩ := kv
    rw [group_keys_cons, List.nodup_cons] at hnd
    rcases List.mem_cons.mp hm with he | hrest
    · rw [Prod.mk.injEq] at he
      obtain ⟨h1, h2⟩ := he
      subst h1
      subst h2
      simp [lookup_group]
    · have hk : ¬ k = d := by
        intro he2
        subst he2
        exact hnd.1 (List.mem_map_of_mem Prod.fst hrest)
      simp [lookup_group, hk, ih hnd.2 hrest]

theorem mem_of_lookup_group (m : List (PyDate × List Activity)) (d : PyDate)
    (h : d ∈ group_keys m) : (d, lookup_group m d) ∈ m := by
  induction m with
  | nil => simp at h
  | cons kv rest ih =>
    obtain ⟨k, v⟩ := kv
    by_cases hk : k = d
    · subst hk
      simp [lookup_group]
    · have hrest : d ∈ group_keys rest := by
        rcases List.mem_cons.mp (by simpa using h) with h1 | h1
        · exact absurd h1.symm hk
        · exact h1
      simp only [lookup_group, if_neg hk]
      exact List.mem_cons_of_mem _ (ih hrest)

theorem lookup_group_of_not_mem (m : List (PyDate × List Activity)) (d : PyDate)
    (h : d ∉ group_keys m) : lookup_group m d = [] := by
  induction m with
  | nil => simp [lookup_group]
  | cons kv rest ih =>
    obtain ⟨k, v⟩ := kv
    have hk : ¬ k = d := by
      intro he
      exact h (by simp [he])
    have hrest : d ∉ group_keys rest := by
      intro hmem
      exact h (by simp [hmem])
    simp [lookup_group, hk, ih hrest]

theorem group_keys_perm (m m2 : List (PyDate × List Activity))
    (h : m.Perm m2) : (group_keys m).Perm (group_keys m2) :=
  h.map Prod.fst

theorem lookup_group_perm (m m2 : List (PyDate × List Activity)) (d : PyDate)
    (hp : m.Perm m2) (hnd : (group_keys m).Nodup) :
    lookup_group m d = lookup_group m2 d := by
  have hnd2 : (group_keys m2).Nodup := hnd.perm (group_keys_perm m m2 hp)
  by_cases hmem : d ∈ group_keys m
  · have h1 : (d, lookup_group m d) ∈ m := mem_of_lookup_group m d hmem
    have h2 : (d, lookup_group m d) ∈ m2 := hp.mem_iff.mp h1
    exact (lookup_group_of_mem m2 d (lookup_group m d) hnd2 h2).symm
  · have hmem2 : d ∉ group_keys m2 := by
      intro hc
      exact hmem (((group_keys_perm m m2 hp).mem_iff).mpr hc)
    rw [lookup_group_of_not_mem m d hmem, lookup_group_of_not_mem m2 d hmem2]

theorem group_activities_nodup_keys (acts : List Activity) :
    (group_keys (group_activities_by_date acts)).Nodup := by
  have h1 : (group_keys (acts.foldl insert_by_date [])).Nodup :=
    group_keys_foldl_nodup acts [] (by simp)
  have hp := List.mergeSort_perm (acts.foldl insert_by_date []) pairDateLe
  exact h1.perm (group_keys_perm _ _ hp.symm)

theorem lookup_group_activities (acts : List Activity) (d : PyDate) :
    lookup_group (group_activities_by_date acts) d =
      acts.filter (fun a => a.started_at.dateOf = d) := by
  have hp := List.mergeSort_perm (acts.foldl insert_by_date []) pairDateLe
  have h1 : (group_keys (acts.foldl insert_by_date [])).Nodup :=
    group_keys_foldl_nodup acts [] (by simp)
  have h2 := lookup_group_perm (acts.foldl insert_by_date [])
    ((acts.foldl insert_by_date []).mergeSort pairDateLe) d hp.symm h1
  rw [group_activities_by_date, ← h2, lookup_group_foldl acts [] d]
  simp [lookup_group]

theorem group_activities_mem_snd (acts : List Activity) (d : PyDate)
    (v : List Activity) (h : (d, v) ∈ group_activities_by_date acts) :
    v = acts.filter (fun a => a.started_at.dateOf = d) := by
  have hl : lookup_group (group_activities_by_date acts) d = v :=
    lookup_group_of_mem _ d v (group_activities_nodup_keys acts) h
  rw [← hl, lookup_group_activities]

theorem group_keys_insert_mem_iff (m : List (PyDate × List Activity))
    (a : Activity) (d : PyDate) :
    d ∈ group_keys (insert_by_date m a) ↔
      d ∈ group_keys m ∨ d = a.started_at.dateOf := by
  by_cases hmem : a.started_at.dateOf ∈ group_keys m
  · rw [group_keys_insert_mem m a hmem]
    constructor
    · exact Or.inl
    · rintro (h | rfl)
      · exact h
      · exact hmem
  · rw [group_keys_insert_not_mem m a hmem]
    simp

theorem group_keys_foldl_mem (acts : List Activity) :
    ∀ m : List (PyDate × List Activity), ∀ d : PyDate,
    d ∈ group_keys (acts.foldl insert_by_date m) ↔
      d ∈ group_keys m ∨ d ∈ acts.map (fun a => a.started_at.dateOf) := by
  induction acts with
  | nil => intro m d; simp
  | cons a as ih =>
    intro m d
    rw [List.foldl_cons, ih, group_keys_insert_mem_iff]
    simp only [List.map_cons, List.mem_cons]
    tauto

theorem group_activities_keys_iff (acts : List Activity) (d : PyDate) :
    d ∈ group_keys (group_activities_by_date acts) ↔
      d ∈ acts.map (fun a => a.started_at.dateOf) := by
  have hp := List.mergeSort_perm (acts.foldl insert_by_date []) pairDateLe
  rw [group_activities_by_date, (group_keys_perm _ _ hp).mem_iff,
    group_keys_foldl_mem acts [] d]
  simp

theorem group_activities_sorted (acts : List Activity) :
    List.Pairwise (fun x y => pairDateLe x y = true)
      (group_activities_by_date acts) :=
  List.sorted_mergeSort pairDateLe_trans pairDateLe_total
    (acts.foldl insert_by_date [])

/-! ### All bucketed activities together are a permutation of the input -/

theorem flatten_insert_perm (m : List (PyDate × List Activity)) (a : Activity) :
    (((insert_by_date m a).map Prod.snd).flatten).Perm
      ((m.map Prod.snd).flatten ++ [a]) := by
  induction m with
  | nil => simp [insert_by_date]
  | cons kv rest ih =>
    obtain ⟨k, v⟩ := kv
    by_cases hk : k = a.started_at.dateOf
    · simp only [insert_by_date, if_pos hk, List.map_cons, List.flatten_cons]
      rw [List.append_assoc, List.append_assoc]
      exact List.Perm.append_left v List.perm_append_comm
    · simp only [insert_by_date, if_neg hk, List.map_cons, List.flatten_cons]
      rw [List.append_assoc]
      exact List.Perm.append_left v ih

theorem flatten_foldl_perm (acts : List Activity) :
    ∀ m : List (PyDate × List Activity),
    (((acts.foldl insert_by_date m).map Prod.snd).flatten).Perm
      ((m.map Prod.snd).flatten ++ acts) := by
  induction acts with
  | nil => intro m; simp
  | cons a as ih =>
    intro m
    rw [List.foldl_cons]
    refine (ih (insert_by_date m a)).trans ?_
    refine (List.Perm.append_right as (flatten_insert_perm m a)).trans ?_
    rw [List.append_assoc, List.singleton_append]

theorem group_activities_flatten_perm (acts : List Activity) :
    (((group_activities_by_date acts).map Prod.snd).flatten).Perm acts := by
  rw [group_activities_by_date]
  have hp := List.mergeSort_perm (acts.foldl insert_by_date []) pairDateLe
  refine ((hp.map Prod.snd).flatten).trans ?_
  simpa using flatten_foldl_perm acts []

theorem foldl_add_sum (f : PyDate × List Activity × List String → ℚ)
    (l : List (PyDate × List Activity × List String)) :
    ∀ x : ℚ, l.foldl (fun acc r => acc + f r) x = x + (l.map f).sum := by
  induction l with
  | nil => intro x; simp
  | cons r rs ih =>
    intro x
    rw [List.foldl_cons, ih, List.map_cons, List.sum_cons, add_assoc]

/-- C1: in day mode, the displayed grand total is `format_hours` applied
once to the exact (unrounded) sum of the durations of all activities in the
input list — for every activity list and tag-project mapping. -/
theorem C1_grand_total_rounds_unrounded_sum (acts : List Activity)
    (tag_projects : StrDict) :
    day_report_total acts tag_projects = sum_durations acts ∧
    day_report_total_line acts tag_projects =
      "Total: " ++ format_hours (sum_durations acts) := by
  have hperm :=
    (group_activities_flatten_perm acts).map calculate_activity_duration_hours
  have hsum := hperm.sum_eq
  have hmain : day_report_total acts tag_projects = sum_durations acts := by
    rw [day_report_total, foldl_add_sum, zero_add, generate_day_report,
      List.map_map, sum_durations, ← hsum, List.map_flatten, List.sum_flatten,
      List.map_map, List.map_map]
    rfl
  exact ⟨hmain, by rw [day_report_total_line, hmain]⟩

/-! ### Tag resolution -/

theorem find_tag_project_eq_find (tags : List String) (tp : StrDict) :
    find_tag_project tags tp =
      (tags.find? (fun t => (dictLookup tp t).isSome)).bind (dictLookup tp) := by
  induction tags with
  | nil => simp [find_tag_project]
  | cons t ts ih =>
    cases h : dictLookup tp t with
    | some p =>
      rw [List.find?_cons_of_pos _ (by simp [h])]
      simp [find_tag_project, h]
    | none =>
      rw [List.find?_cons_of_neg _ (by simp [h])]
      simp [find_tag_project, h, ih]

/-- C6 (amended): tag-to-project resolution scans the activity's tags in
their given order and returns the project bound to the first tag present in
the mapping, except that a bound project equal to the empty string is
replaced by the sentinel Other (Python `or` truthiness); it returns Other
when no tag of the activity is in the mapping. For tags `["b", "a"]` and
mapping `{a: P1, b: P2}` the result is `P2`. -/
theorem C6_first_match_wins_or_other :
    (∀ (a : Activity) (tag_projects : StrDict),
      resolved_project a tag_projects =
        match (a.tags.find? (fun t => (dictLookup tag_projects t).isSome)).bind
            (dictLookup tag_projects) with
        | none => "Other"
        | some p => if p = "" then "Other" else p) ∧
    resolved_project
      ⟨"t", ["b", "a"], ⟨⟨2023, 1, 1⟩, 0⟩, ⟨⟨2023, 1, 1⟩, 0⟩⟩
      [("a", "P1"), ("b", "P2")] = "P2" := by
  constructor
  · intro a tp
    simp only [resolved_project, get_activity_project, find_tag_project_eq_find]
  · rfl

/-- C6 counterexample: for an activity with tags `["a"]` and the mapping
binding tag `a` to the empty-string project, the first tag is present in
the mapping and bound to `""`, yet resolution as used by the reports
produces "Other", not the bound project. -/
theorem C6_counterexample_empty_project :
    get_activity_project
        ⟨"t", ["a"], ⟨⟨2023, 1, 1⟩, 0⟩, ⟨⟨2023, 1, 1⟩, 0⟩⟩ [("a", "")] =
      some "" ∧
    resolved_project
        ⟨"t", ["a"], ⟨⟨2023, 1, 1⟩, 0⟩, ⟨⟨2023, 1, 1⟩, 0⟩⟩ [("a", "")] =
      "Other" :=
  ⟨rfl, rfl⟩

/-! ### Day report rows -/

theorem sorted_string_set_pairwise (l : List String) :
    List.Pairwise (fun p q => strLe p q = true ∧ p ≠ q)
      (sorted_string_set l) := by
  have h1 : List.Pairwise (fun p q => strLe p q = true) (sorted_string_set l) :=
    List.sorted_mergeSort strLe_trans strLe_total l.dedup
  have h2 : (sorted_string_set l).Nodup :=
    (List.nodup_dedup l).perm (List.mergeSort_perm l.dedup strLe).symm
  exact List.Pairwise.and h1 h2

theorem sorted_string_set_mem (l : List String) (p : String) :
    p ∈ sorted_string_set l ↔ p ∈ l := by
  rw [sorted_string_set, List.mem_mergeSort, List.mem_dedup]

theorem generate_day_report_pairwise (acts : List Activity)
    (tag_projects : StrDict) :
    List.Pairwise (fun r1 r2 => dateLe r1.1 r2.1 = true ∧ r1.1 ≠ r2.1)
      (generate_day_report acts tag_projects) := by
  have h1 : List.Pairwise (fun g1 g2 => dateLe g1.1 g2.1 = true)
      (group_activities_by_date acts) := group_activities_sorted acts
  have h2 : List.Pairwise (fun g1 g2 => g1.1 ≠ g2.1)
      (group_activities_by_date acts) :=
    List.pairwise_map.mp (group_activities_nodup_keys acts)
  rw [generate_day_report, List.pairwise_map]
  exact List.Pairwise.and h1 h2

/-- C7: day-mode aggregation groups each activity by the calendar date of
its `started_at` (never `finished_at`): each row's activity list is exactly
the input activities whose start date is the row's date; the rows appear in
strictly ascending date order; each row's project list is strictly sorted
(hence deduplicated) and contains exactly the resolved projects of that
date's activities; and every input activity is represented by a row for
its start date. -/
theorem C7_group_by_start_date (acts : List Activity) (tag_projects : StrDict) :
    List.Pairwise (fun r1 r2 => dateLe r1.1 r2.1 = true ∧ r1.1 ≠ r2.1)
      (generate_day_report acts tag_projects) ∧
    (∀ d as ps, (d, as, ps) ∈ generate_day_report acts tag_projects →
      as = acts.filter (fun a => a.started_at.dateOf = d) ∧
      List.Pairwise (fun p q => strLe p q = true ∧ p ≠ q) ps ∧
      (∀ p, p ∈ ps ↔ ∃ a ∈ as, resolved_project a tag_projects = p)) ∧
    (∀ a ∈ acts, ∃ r ∈ generate_day_report acts tag_projects,
      r.1 = a.started_at.dateOf) := by
  refine ⟨generate_day_report_pairwise acts tag_projects, ?_, ?_⟩
  · intro d as ps hmem
    rw [generate_day_report, List.mem_map] at hmem
    obtain ⟨g, hg, heq⟩ := hmem
    have hd : g.1 = d := congrArg Prod.fst heq
    have has : g.2 = as := congrArg (fun r => r.2.1) heq
    have hps : sorted_string_set
        (g.2.map (fun a2 => resolved_project a2 tag_projects)) = ps :=
      congrArg (fun r => r.2.2) heq
    refine ⟨?_, ?_, ?_⟩
    · rw [← has, ← hd]
      exact group_activities_mem_snd acts g.1 g.2 hg
    · rw [← hps]
      exact sorted_string_set_pairwise _
    · intro p
      rw [← hps, ← has, sorted_string_set_mem, List.mem_map]
  · intro a ha
    have hkey : a.started_at.dateOf ∈
        group_keys (group_activities_by_date acts) :=
      (group_activities_keys_iff acts a.started_at.dateOf).mpr
        (List.mem_map_of_mem _ ha)
    rw [group_keys, List.mem_map] at hkey
    obtain ⟨g, hg, hgd⟩ := hkey
    refine ⟨(g.1, g.2, sorted_string_set
      (g.2.map (fun a2 => resolved_project a2 tag_projects))), ?_, hgd⟩
    rw [generate_day_report, List.mem_map]
    exact ⟨g, hg, rfl⟩

/-! ### Project-mapping loading -/

theorem dictLookup_insert_self (tp : StrDict) (k v : String) :
    dictLookup (dictInsert tp k v) k = some v := by
  induction tp with
  | nil => simp [dictInsert, dictLookup]
  | cons kv rest ih =>
    obtain ⟨k0, v0⟩ := kv
    by_cases hk : k0 = k
    · simp [dictInsert, dictLookup, hk]
    · simp [dictInsert, dictLookup, hk, ih]

theorem dictLookup_insert_ne (tp : StrDict) (k v t : String) (h : k ≠ t) :
    dictLookup (dictInsert tp k v) t = dictLookup tp t := by
  induction tp with
  | nil => simp [dictInsert, dictLookup, h]
  | cons kv rest ih =>
    obtain ⟨k0, v0⟩ := kv
    by_cases hk : k0 = k
    · subst hk
      simp [dictInsert, dictLookup, h]
    · by_cases ht : k0 = t
      · have h2 : ¬ t = k := fun he => h he.symm
        simp [dictInsert, dictLookup, hk, ht, h2]
      · simp [dictInsert, dictLookup, hk, ht, ih]

theorem load_step_eq (tp : StrDict) (line : String) :
    load_step tp line =
      match split_once '=' line.toList with
      | none => none
      | some (t, p) => some (dictInsert tp (py_strip t) (py_strip p)) := rfl

theorem foldlM_load_success (lines : List String) :
    ∀ tp0 : StrDict,
    (∀ l ∈ lines, (split_once '=' l.toList).isSome = true) →
    ∃ tp, lines.foldlM load_step tp0 = some tp := by
  induction lines with
  | nil => intro tp0 _; exact ⟨tp0, rfl⟩
  | cons l ls ih =>
    intro tp0 h
    have hl := h l (List.mem_cons_self l ls)
    cases hs : split_once '=' l.toList with
    | none => rw [hs] at hl; simp at hl
    | some tpair =>
      obtain ⟨t, p⟩ := tpair
      obtain ⟨tp, htp⟩ := ih (dictInsert tp0 (py_strip t) (py_strip p))
        (fun l2 hm => h l2 (List.mem_cons_of_mem l hm))
      refine ⟨tp, ?_⟩
      rw [List.foldlM_cons, load_step_eq, hs]
      simpa using htp

theorem foldlM_load_lookup_frozen (post : List String) (t : String) :
    ∀ tp2 tp : StrDict, post.foldlM load_step tp2 = some tp →
    (∀ l ∈ post, ∀ t2 p2, split_once '=' l.toList = some (t2, p2) →
      py_strip t2 ≠ t) →
    dictLookup tp t = dictLookup tp2 t := by
  induction post with
  | nil =>
    intro tp2 tp h _
    simp only [List.foldlM_nil, pure, Option.some.injEq] at h
    rw [← h]
  | cons l ls ih =>
    intro tp2 tp h hno
    rw [List.foldlM_cons, load_step_eq] at h
    cases hs : split_once '=' l.toList with
    | none => rw [hs] at h; simp at h
    | some tpair =>
      obtain ⟨t2, p2⟩ := tpair
      rw [hs] at h
      have hstep : ls.foldlM load_step
          (dictInsert tp2 (py_strip t2) (py_strip p2)) = some tp := by
        simpa using h
      have hne : py_strip t2 ≠ t := hno l (List.mem_cons_self l ls) t2 p2 hs
      rw [ih _ tp hstep (fun l2 hm => hno l2 (List.mem_cons_of_mem l hm))]
      exact dictLookup_insert_ne tp2 _ _ t hne

/-- C10: when the project-mapping file has several lines with the same
trimmed tag, loading succeeds (given every line contains `=`) and the
resulting mapping binds that tag to the stripped project of the last such
line: later lines override earlier ones. -/
theorem C10_duplicate_tag_last_line_wins :
    (∀ lines : List String,
      (∀ l ∈ lines, (split_once '=' l.toList).isSome = true) →
      ∃ tp, load_projects lines = some tp) ∧
    (∀ (pre post : List String) (line : String) (tp : StrDict)
        (t0 p0 : List Char),
      load_projects (pre ++ line :: post) = some tp →
      split_once '=' line.toList = some (t0, p0) →
      (∀ l2 ∈ post, ∀ t2 p2, split_once '=' l2.toList = some (t2, p2) →
        py_strip t2 ≠ py_strip t0) →
      dictLookup tp (py_strip t0) = some (py_strip p0)) := by
  constructor
  · intro lines h
    exact foldlM_load_success lines [] h
  · intro pre post line tp t0 p0 hload hsplit hno
    rw [load_projects, List.foldlM_append] at hload
    cases hpre : pre.foldlM load_step [] with
    | none => rw [hpre] at hload; simp at hload
    | some tp1 =>
      rw [hpre] at hload
      have hrest : ((line :: post).foldlM load_step tp1) = some tp := by
        simpa using hload
      have hpost : post.foldlM load_step
          (dictInsert tp1 (py_strip t0) (py_strip p0)) = some tp := by
        rw [List.foldlM_cons, load_step_eq, hsplit] at hrest
        simpa using hrest
      rw [foldlM_load_lookup_frozen post (py_strip t0) _ tp hpost hno]
      exact dictLookup_insert_self tp1 _ _

/-! ### Rounding and display formatting -/

theorem py_round_spec (x : ℚ) :
    |x - (py_round x : ℚ)| ≤ 1/2 ∧
      (|x - (py_round x : ℚ)| = 1/2 → py_round x % 2 = 0) := by
  have hfl : ((⌊x⌋ : ℚ)) ≤ x := Int.floor_le x
  have hfu : x < (⌊x⌋ : ℚ) + 1 := Int.lt_floor_add_one x
  rw [py_round]
  by_cases h1 : x - ⌊x⌋ < 1/2
  · rw [if_pos h1]
    constructor
    · rw [abs_of_nonneg (by linarith)]
      linarith
    · intro habs
      rw [abs_of_nonneg (by linarith)] at habs
      linarith
  · rw [if_neg h1]
    by_cases h2 : 1/2 < x - ⌊x⌋
    · rw [if_pos h2]
      push_cast
      constructor
      · rw [abs_of_nonpos (by linarith)]
        linarith
      · intro habs
        rw [abs_of_nonpos (by linarith)] at habs
        linarith
    · rw [if_neg h2]
      have hmid : x - ⌊x⌋ = 1/2 := le_antisymm (not_lt.mp h2) (not_lt.mp h1)
      by_cases h3 : ⌊x⌋ % 2 = 0
      · rw [if_pos h3]
        constructor
        · rw [abs_of_nonneg (by linarith)]
          linarith
        · intro _
          exact h3
      · rw [if_neg h3]
        push_cast
        constructor
        · rw [abs_of_nonpos (by linarith)]
          linarith
        · intro _
          omega

theorem py_round_at_62_25 : py_round (62/25 : ℚ) = 2 := by
  have h : ⌊(62/25 : ℚ)⌋ = 2 := by norm_num [Int.floor_eq_iff]
  rw [py_round, h]
  norm_num

theorem py_round_at_63_25 : py_round (63/25 : ℚ) = 3 := by
  have h : ⌊(63/25 : ℚ)⌋ = 2 := by norm_num [Int.floor_eq_iff]
  rw [py_round, h]
  norm_num

theorem py_round_at_zero : py_round (0 : ℚ) = 0 := by
  rw [py_round]
  norm_num

theorem py_round_at_5_2 : py_round (5/2 : ℚ) = 2 := by
  have h : ⌊(5/2 : ℚ)⌋ = 2 := by norm_num [Int.floor_eq_iff]
  rw [py_round, h]
  norm_num

/-- Modelled from the spec side of claim C2: rounding "half-up at the 0.25
boundary" — the doubled value is rounded to the nearest integer with the
tie rounded upward, `floor(x + 1/2)`. -/
def round_half_up (x : ℚ) : ℤ :=
  ⌊x + 1/2⌋

/-- The display formatter the claim describes: half-up rounding to the
nearest half, then one decimal and the `h` suffix. -/
def format_hours_half_up (q : ℚ) : String :=
  str_half (round_half_up (q * 2)) ++ "h"

/-- C2 counterexample: at 1.25 (exactly representable in binary floating
point, so the rational model agrees with the float computation) the code
produces "1.0h" — Python 3 round ties-to-even gives round(2.5) = 2 — while
the half-up rounding stated by the claim produces "1.5h". -/
theorem C2_counterexample_tie_one_quarter :
    format_hours (5/4 : ℚ) = "1.0h" ∧
      format_hours_half_up (5/4 : ℚ) = "1.5h" ∧
      format_hours (5/4 : ℚ) ≠ format_hours_half_up (5/4 : ℚ) := by
  have h2 : (5/4 : ℚ) * 2 = 5/2 := by norm_num
  have hcode : format_hours (5/4 : ℚ) = "1.0h" := by
    rw [format_hours, h2, py_round_at_5_2]
    decide
  have hspec : format_hours_half_up (5/4 : ℚ) = "1.5h" := by
    have hup : round_half_up (5/2 : ℚ) = 3 := by
      rw [round_half_up]
      norm_num [Int.floor_eq_iff]
    rw [format_hours_half_up, h2, hup]
    decide
  refine ⟨hcode, hspec, ?_⟩
  rw [hcode, hspec]
  decide

/-- C2 (amended): `format_hours` rounds its argument to the nearest
multiple of 0.5 — with a tie at the 0.25 boundary going to the EVEN
half-count (Python 3 banker's rounding), not half-up — and formats the
result with one decimal digit and an `h` suffix; the claim's three examples
format_hours(1.24) = "1.0h", format_hours(1.26) = "1.5h" and
format_hours(0.0) = "0.0h" do hold. -/
theorem C2_rounds_to_nearest_half_ties_even :
    (∀ q : ℚ, ∃ k : ℤ, format_hours q = str_half k ++ "h" ∧
      |q - (k : ℚ)/2| ≤ 1/4 ∧ (|q - (k : ℚ)/2| = 1/4 → k % 2 = 0)) ∧
    format_hours (31/25 : ℚ) = "1.0h" ∧
    format_hours (63/50 : ℚ) = "1.5h" ∧
    format_hours (0 : ℚ) = "0.0h" := by
  refine ⟨?_, ?_, ?_, ?_⟩
  · intro q
    refine ⟨py_round (q * 2), rfl, ?_⟩
    have hs := py_round_spec (q * 2)
    have heq : q - (py_round (q * 2) : ℚ)/2 =
        (q * 2 - (py_round (q * 2) : ℚ)) / 2 := by
      ring
    have habs : |q - (py_round (q * 2) : ℚ)/2| =
        |q * 2 - (py_round (q * 2) : ℚ)| / 2 := by
      rw [heq, abs_div]
      norm_num
    constructor
    · rw [habs]
      linarith [hs.1]
    · intro h
      rw [habs] at h
      exact hs.2 (by linarith)
  · have h2 : (31/25 : ℚ) * 2 = 62/25 := by norm_num
    rw [format_hours, h2, py_round_at_62_25]
    decide
  · have h2 : (63/50 : ℚ) * 2 = 63/25 := by norm_num
    rw [format_hours, h2, py_round_at_63_25]
    decide
  · have h2 : (0 : ℚ) * 2 = 0 := by norm_num
    rw [format_hours, h2, py_round_at_zero]
    decide

/-! ### Date-range resolution -/

theorem days_in_month_bounds (y m : Nat) :
    28 ≤ days_in_month y m ∧ days_in_month y m ≤ 31 := by
  rw [days_in_month]
  split
  · split <;> omega
  · split <;> omega

theorem days_in_month_jan (y : Nat) : days_in_month y 1 = 31 := rfl

theorem days_in_month_dec (y : Nat) : days_in_month y 12 = 31 := rfl

theorem date_new_some_iff (y m d : Nat) (p : PyDate) :
    date_new y m d = some p ↔
      ((1 ≤ y ∧ y ≤ 9999 ∧ 1 ≤ m ∧ m ≤ 12 ∧ 1 ≤ d ∧ d ≤ days_in_month y m) ∧
        p = ⟨y, m, d⟩) := by
  rw [date_new]
  split
  · rename_i hcond
    simp [hcond, eq_comm]
  · rename_i hcond
    simp [hcond]

theorem py_or_none (d : Nat) : py_or none d = d := rfl

theorem py_or_zero (d : Nat) : py_or (some 0) d = d := rfl

theorem py_or_succ (k d : Nat) : py_or (some (k + 1)) d = k + 1 := by
  simp [py_or]

theorem resolve_one_ok_parts (s : String) (st en : PyDate)
    (h : resolve_date_range s none = Except.ok (st, en)) :
    ∃ y m d, parse_date s = some (y, m, d) ∧
      date_new y (py_or m 1) (py_or d 1) = some st ∧
      compute_end_date y m d = some en := by
  cases hp : parse_date s with
  | none => simp [resolve_date_range, hp] at h
  | some t =>
    obtain ⟨y, m, d⟩ := t
    cases hdn : date_new y (py_or m 1) (py_or d 1) with
    | none => simp [resolve_date_range, hp, hdn] at h
    | some st0 =>
      cases hen : compute_end_date y m d with
      | none => simp [resolve_date_range, hp, hdn, hen] at h
      | some en0 =>
        simp only [resolve_date_range, hp, hdn, hen, Except.ok.injEq,
          Prod.mk.injEq] at h
        exact ⟨y, m, d, rfl, by rw [hdn, h.1], by rw [hen, h.2]⟩

theorem resolve_one_ok_build (s : String) (y : Nat) (m d : Option Nat)
    (st en : PyDate) (hp : parse_date s = some (y, m, d))
    (hdn : date_new y (py_or m 1) (py_or d 1) = some st)
    (hen : compute_end_date y m d = some en) :
    resolve_date_range s none = Except.ok (st, en) := by
  simp [resolve_date_range, hp, hdn, hen]

theorem resolve_one_classify (s : String) :
    (∃ r, resolve_date_range s none = Except.ok r) ∨
      resolve_date_range s none = Except.error ⟨s⟩ := by
  cases hp : parse_date s with
  | none => right; simp [resolve_date_range, hp]
  | some t =>
    obtain ⟨y, m, d⟩ := t
    cases hdn : date_new y (py_or m 1) (py_or d 1) with
    | none => right; simp [resolve_date_range, hp, hdn]
    | some st =>
      cases hen : compute_end_date y m d with
      | none => right; simp [resolve_date_range, hp, hdn, hen]
      | some en => left; exact ⟨(st, en), by simp [resolve_date_range, hp, hdn, hen]⟩

/-- C9 is wrong on the code: with a valid first date string "2023" and a
malformed second date string "xyz", resolution fails but the surfaced
InvalidDateError carries "2023" (the message formats `sys.argv[3]`), not
the offending string "xyz". -/
theorem C9_error_formats_first_string :
    resolve_date_range "2023" none =
        Except.ok (⟨2023, 1, 1⟩, ⟨2023, 12, 31⟩) ∧
      parse_date "xyz" = none ∧
      resolve_date_range "2023" (some "xyz") = Except.error ⟨"2023"⟩ :=
  ⟨rfl, rfl, rfl⟩

/-- C4 counterexample: the full date string "2023-02-31" (month 01–12, day
01–31) does NOT resolve: `datetime.date(2023, 2, 31)` raises `ValueError`,
so the code exits with InvalidDateError instead of producing a range. -/
theorem C4_counterexample_feb_31 :
    resolve_date_range "2023-02-31" none = Except.error ⟨"2023-02-31"⟩ := rfl

/-- C4 (amended): for a full date string YYYY-MM-DD (year in 1–9999, month
01–12, day 01–31), resolution succeeds with the single-day range exactly
when the day does not exceed the actual number of days of that month
(the `datetime.date` constructor validates it); otherwise it fails with
InvalidDateError carrying the string. -/
theorem C4_day_validated_against_month (s : String) (y m d : Nat)
    (hp : parse_date s = some (y, some m, some d))
    (hy1 : 1 ≤ y) (hy2 : y ≤ 9999) (hm1 : 1 ≤ m) (hm2 : m ≤ 12)
    (hd1 : 1 ≤ d) :
    (d ≤ days_in_month y m →
      resolve_date_range s none = Except.ok (⟨y, m, d⟩, ⟨y, m, d⟩)) ∧
    (days_in_month y m < d →
      resolve_date_range s none = Except.error ⟨s⟩) := by
  obtain ⟨k, rfl⟩ : ∃ k, m = k + 1 := ⟨m - 1, by omega⟩
  obtain ⟨j, rfl⟩ : ∃ j, d = j + 1 := ⟨d - 1, by omega⟩
  constructor
  · intro hle
    have hdn : date_new y (k + 1) (j + 1) = some ⟨y, k + 1, j + 1⟩ := by
      rw [date_new, if_pos]
      exact ⟨hy1, hy2, hm1, hm2, hd1, hle⟩
    refine resolve_one_ok_build s y (some (k + 1)) (some (j + 1)) _ _ hp ?_ ?_
    · rw [py_or_succ, py_or_succ]
      exact hdn
    · simp only [compute_end_date]
      exact hdn
  · intro hlt
    have hdn : date_new y (k + 1) (j + 1) = none := by
      rw [date_new, if_neg]
      intro hc
      omega
    simp [resolve_date_range, hp, py_or_succ, hdn]

/-- Witness for C4 at the concrete input "2024-02-29": February 29 exists
in the leap year 2024, so resolution yields the single-day range. -/
theorem C4_day_validated_witness :
    resolve_date_range "2024-02-29" none =
      Except.ok (⟨2024, 2, 29⟩, ⟨2024, 2, 29⟩) :=
  (C4_day_validated_against_month "2024-02-29" 2024 2 29 (by decide)
    (by norm_num) (by norm_num) (by norm_num) (by norm_num) (by norm_num)).1
    (by decide)

/-- C5: the granularity-expansion rules — a year-only string resolves to
Jan 1 through Dec 31 of that year; a year-month string resolves with end
equal to the last calendar day of that month (leap Februaries included:
2024-02 ends on day 29, 2023-02 on day 28); a full date string resolves,
when it resolves, to a single-day range with start = end; and a second
date string overrides only the end, by the same expansion rules. -/
theorem C5_range_expansion_rules :
    (∀ (s : String) (y : Nat), parse_date s = some (y, none, none) →
      1 ≤ y → y ≤ 9999 →
      resolve_date_range s none = Except.ok (⟨y, 1, 1⟩, ⟨y, 12, 31⟩)) ∧
    (∀ (s : String) (y m : Nat), parse_date s = some (y, some m, none) →
      1 ≤ y → y ≤ 9999 → 1 ≤ m → m ≤ 12 →
      resolve_date_range s none =
        Except.ok (⟨y, m, 1⟩, ⟨y, m, days_in_month y m⟩)) ∧
    (resolve_date_range "2024-02" none =
        Except.ok (⟨2024, 2, 1⟩, ⟨2024, 2, 29⟩) ∧
      resolve_date_range "2023-02" none =
        Except.ok (⟨2023, 2, 1⟩, ⟨2023, 2, 28⟩)) ∧
    (∀ (s : String) (y m d : Nat) (st en : PyDate),
      parse_date s = some (y, some m, some d) → 1 ≤ m → 1 ≤ d →
      resolve_date_range s none = Except.ok (st, en) → st = en) ∧
    (∀ (s1 s2 : String) (st1 en1 st2 en2 : PyDate),
      resolve_date_range s1 none = Except.ok (st1, en1) →
      resolve_date_range s2 none = Except.ok (st2, en2) →
      resolve_date_range s1 (some s2) = Except.ok (st1, en2)) := by
  refine ⟨?_, ?_, ⟨rfl, rfl⟩, ?_, ?_⟩
  · intro s y hp hy1 hy2
    have hdn : date_new y 1 1 = some ⟨y, 1, 1⟩ := by
      rw [date_new, if_pos]
      refine ⟨hy1, hy2, le_refl 1, by omega, le_refl 1, ?_⟩
      rw [days_in_month_jan]
      omega
    have hen : compute_end_date y none none = some ⟨y, 12, 31⟩ := by
      simp only [compute_end_date, get_last_date_of_year, get_last_date_of_month,
        days_in_month_dec]
      rw [date_new, if_pos]
      refine ⟨hy1, hy2, by omega, by omega, by omega, ?_⟩
      rw [days_in_month_dec]
    exact resolve_one_ok_build s y none none _ _ hp hdn hen
  · intro s y m hp hy1 hy2 hm1 hm2
    obtain ⟨k, rfl⟩ : ∃ k, m = k + 1 := ⟨m - 1, by omega⟩
    have hdm := days_in_month_bounds y (k + 1)
    have hdn : date_new y (k + 1) 1 = some ⟨y, k + 1, 1⟩ := by
      rw [date_new, if_pos]
      exact ⟨hy1, hy2, hm1, hm2, le_refl 1, by omega⟩
    have hen : compute_end_date y (some (k + 1)) none =
        some ⟨y, k + 1, days_in_month y (k + 1)⟩ := by
      simp only [compute_end_date, get_last_date_of_month]
      rw [date_new, if_pos]
      exact ⟨hy1, hy2, hm1, hm2, by omega, le_refl _⟩
    refine resolve_one_ok_build s y (some (k + 1)) none _ _ hp ?_ hen
    rw [py_or_succ, py_or_none]
    exact hdn
  · intro s y m d st en hp hm1 hd1 hok
    obtain ⟨k, rfl⟩ : ∃ k, m = k + 1 := ⟨m - 1, by omega⟩
    obtain ⟨j, rfl⟩ : ∃ j, d = j + 1 := ⟨d - 1, by omega⟩
    simp only [resolve_date_range, hp, py_or_succ, compute_end_date] at hok
    cases hdn : date_new y (k + 1) (j + 1) with
    | none => rw [hdn] at hok; simp at hok
    | some p =>
      rw [hdn] at hok
      simp only [Except.ok.injEq, Prod.mk.injEq] at hok
      rw [← hok.1, ← hok.2]
  · intro s1 s2 st1 en1 st2 en2 h1 h2
    obtain ⟨y1, m1, d1, hp1, hdn1, hen1⟩ := resolve_one_ok_parts s1 st1 en1 h1
    obtain ⟨y2, m2, d2, hp2, hdn2, hen2⟩ := resolve_one_ok_parts s2 st2 en2 h2
    simp [resolve_date_range, hp1, hdn1, hp2, hen2]

/-! ### The grammar of accepted date strings -/

theorem takeWhile_digits_of_append (ys : List Char) (x : Char) (t : List Char)
    (h : ∀ c ∈ ys, is_digit_char c = true) (hx : is_digit_char x = false) :
    (ys ++ x :: t).takeWhile is_digit_char = ys ∧
      (ys ++ x :: t).dropWhile is_digit_char = x :: t := by
  induction ys with
  | nil => simp [List.takeWhile_cons, List.dropWhile_cons, hx]
  | cons c cs ih =>
    have hc : is_digit_char c = true := h c (List.mem_cons_self c cs)
    have ht := ih (fun c2 hm => h c2 (List.mem_cons_of_mem c hm))
    simp [List.takeWhile_cons, List.dropWhile_cons, hc, ht.1, ht.2]

theorem takeWhile_digits_all (ys : List Char)
    (h : ∀ c ∈ ys, is_digit_char c = true) :
    ys.takeWhile is_digit_char = ys ∧ ys.dropWhile is_digit_char = [] := by
  induction ys with
  | nil => simp
  | cons c cs ih =>
    have hc : is_digit_char c = true := h c (List.mem_cons_self c cs)
    have ht := ih (fun c2 hm => h c2 (List.mem_cons_of_mem c hm))
    simp [List.takeWhile_cons, List.dropWhile_cons, hc, ht.1, ht.2]

theorem takeWhile_digits_forall (cs : List Char) :
    ∀ c ∈ cs.takeWhile is_digit_char, is_digit_char c = true := by
  induction cs with
  | nil => simp
  | cons x xs ih =>
    cases hx : is_digit_char x with
    | false => simp [List.takeWhile_cons, hx]
    | true =>
      simp only [List.takeWhile_cons, hx, if_true]
      intro c hc
      rcases List.mem_cons.mp hc with h1 | h1
      · rw [h1]; exact hx
      · exact ih c h1

theorem month_chars_digits (c1 c2 : Char) (h : month_chars c1 c2 = true) :
    is_digit_char c1 = true ∧ is_digit_char c2 = true := by
  simp only [month_chars, is_digit_char, Bool.or_eq_true, Bool.and_eq_true,
    decide_eq_true_eq] at h ⊢
  omega

theorem day_chars_digits (c1 c2 : Char) (h : day_chars c1 c2 = true) :
    is_digit_char c1 = true ∧ is_digit_char c2 = true := by
  simp only [day_chars, is_digit_char, Bool.or_eq_true, Bool.and_eq_true,
    decide_eq_true_eq] at h ⊢
  omega

theorem digitsToNat_pair (c1 c2 : Char) :
    digitsToNat [c1, c2] = 10 * (c1.toNat - 48) + (c2.toNat - 48) := by
  simp [digitsToNat]

theorem month_chars_iff_le (c1 c2 : Char) (h1 : is_digit_char c1 = true)
    (h2 : is_digit_char c2 = true) :
    month_chars c1 c2 = true ↔ digitsToNat [c1, c2] ≤ 12 := by
  rw [digitsToNat_pair]
  simp only [month_chars, is_digit_char, Bool.or_eq_true, Bool.and_eq_true,
    decide_eq_true_eq] at h1 h2 ⊢
  omega

theorem day_chars_iff_le (c1 c2 : Char) (h1 : is_digit_char c1 = true)
    (h2 : is_digit_char c2 = true) :
    day_chars c1 c2 = true ↔ digitsToNat [c1, c2] ≤ 31 := by
  rw [digitsToNat_pair]
  simp only [day_chars, is_digit_char, Bool.or_eq_true, Bool.and_eq_true,
    decide_eq_true_eq] at h1 h2 ⊢
  omega

theorem match_date_regex_cases (cs : List Char)
    (r : Nat × Option Nat × Option Nat) (h : match_date_regex cs = some r) :
    (cs ≠ [] ∧ (∀ c ∈ cs, is_digit_char c = true) ∧
      r = (digitsToNat cs, none, none)) ∨
    (∃ ys m1 m2, cs = ys ++ '-' :: [m1, m2] ∧ ys ≠ [] ∧
      (∀ c ∈ ys, is_digit_char c = true) ∧ month_chars m1 m2 = true ∧
      r = (digitsToNat ys, some (digitsToNat [m1, m2]), none)) ∨
    (∃ ys m1 m2 d1 d2, cs = ys ++ '-' :: m1 :: m2 :: '-' :: [d1, d2] ∧
      ys ≠ [] ∧ (∀ c ∈ ys, is_digit_char c = true) ∧
      month_chars m1 m2 = true ∧ day_chars d1 d2 = true ∧
      r = (digitsToNat ys, some (digitsToNat [m1, m2]),
        some (digitsToNat [d1, d2]))) := by
  have hsplit := List.takeWhile_append_dropWhile is_digit_char cs
  have hdig := takeWhile_digits_forall cs
  rw [match_date_regex] at h
  by_cases hemp : (cs.takeWhile is_digit_char).isEmpty
  · simp [hemp] at h
  · have hne : cs.takeWhile is_digit_char ≠ [] := by
      intro he
      rw [he] at hemp
      simp at hemp
    rw [if_neg hemp] at h
    cases hdw : cs.dropWhile is_digit_char with
    | nil =>
      rw [hdw] at h
      dsimp only at h
      have hcs : cs.takeWhile is_digit_char = cs := by
        conv_rhs => rw [← hsplit, hdw, List.append_nil]
      rw [hcs] at h hne hdig
      left
      simp only [Option.some.injEq] at h
      exact ⟨hne, hdig, h.symm⟩
    | cons c rest =>
      rw [hdw] at h
      dsimp only at h
      by_cases hc : c = '-'
      · rw [if_pos hc] at h
        subst hc
        cases rest with
        | nil => simp at h
        | cons m1 rest1 =>
          cases rest1 with
          | nil => simp at h
          | cons m2 rest2 =>
            dsimp only at h
            by_cases hmc : month_chars m1 m2 = true
            · rw [if_pos hmc] at h
              cases rest2 with
              | nil =>
                right; left
                refine ⟨cs.takeWhile is_digit_char, m1, m2, ?_, hne, hdig, hmc, ?_⟩
                · conv_lhs => rw [← hsplit, hdw]
                simp only [Option.some.injEq] at h
                rw [← h]
              | cons c2 rest3 =>
                dsimp only at h
                by_cases hc2 : c2 = '-'
                · rw [if_pos hc2] at h
                  subst hc2
                  cases rest3 with
                  | nil => simp at h
                  | cons d1 rest4 =>
                    cases rest4 with
                    | nil => simp at h
                    | cons d2 rest5 =>
                      dsimp only at h
                      by_cases hday : (day_chars d1 d2 && rest5.isEmpty) = true
                      · rw [if_pos hday] at h
                        rw [Bool.and_eq_true] at hday
                        have hre : rest5 = [] := by
                          have := hday.2
                          simpa using this
                        subst hre
                        right; right
                        refine ⟨cs.takeWhile is_digit_char, m1, m2, d1, d2,
                          ?_, hne, hdig, hmc, hday.1, ?_⟩
                        · conv_lhs => rw [← hsplit, hdw]
                        simp only [Option.some.injEq] at h
                        rw [← h]
                      · rw [if_neg hday] at h
                        exact absurd h (by simp)
                · rw [if_neg hc2] at h
                  exact absurd h (by simp)
            · rw [if_neg hmc] at h
              exact absurd h (by simp)
      · rw [if_neg hc] at h
        exact absurd h (by simp)

theorem match_date_regex_year (ys : List Char) (hne : ys ≠ [])
    (h : ∀ c ∈ ys, is_digit_char c = true) :
    match_date_regex ys = some (digitsToNat ys, none, none) := by
  have ht := takeWhile_digits_all ys h
  simp [match_date_regex, ht.1, ht.2, hne]

theorem match_date_regex_ym (ys : List Char) (m1 m2 : Char) (hne : ys ≠ [])
    (h : ∀ c ∈ ys, is_digit_char c = true) (hmc : month_chars m1 m2 = true) :
    match_date_regex (ys ++ '-' :: [m1, m2]) =
      some (digitsToNat ys, some (digitsToNat [m1, m2]), none) := by
  have ht := takeWhile_digits_of_append ys '-' [m1, m2] h (by decide)
  simp [match_date_regex, ht.1, ht.2, hne, hmc]

theorem match_date_regex_ymd (ys : List Char) (m1 m2 d1 d2 : Char)
    (hne : ys ≠ []) (h : ∀ c ∈ ys, is_digit_char c = true)
    (hmc : month_chars m1 m2 = true) (hdc : day_chars d1 d2 = true) :
    match_date_regex (ys ++ '-' :: m1 :: m2 :: '-' :: [d1, d2]) =
      some (digitsToNat ys, some (digitsToNat [m1, m2]),
        some (digitsToNat [d1, d2])) := by
  have ht := takeWhile_digits_of_append ys '-' (m1 :: m2 :: '-' :: [d1, d2]) h
    (by decide)
  simp [match_date_regex, ht.1, ht.2, hne, hmc, hdc]

theorem match_chars_all (cs : List Char) (r : Nat × Option Nat × Option Nat)
    (h : match_date_regex cs = some r) :
    ∀ c ∈ cs, is_digit_char c = true ∨ c = '-' := by
  rcases match_date_regex_cases cs r h with
    ⟨_, hd, _⟩ | ⟨ys, m1, m2, hcs, _, hd, hmc, _⟩ |
    ⟨ys, m1, m2, d1, d2, hcs, _, hd, hmc, hdc, _⟩
  · intro c hc
    exact Or.inl (hd c hc)
  · intro c hc
    rw [hcs] at hc
    have hm := month_chars_digits m1 m2 hmc
    rcases List.mem_append.mp hc with h1 | h1
    · exact Or.inl (hd c h1)
    · rcases List.mem_cons.mp h1 with h2 | h2
      · exact Or.inr h2
      · rcases List.mem_cons.mp h2 with h3 | h3
        · rw [h3]; exact Or.inl hm.1
        · rw [List.mem_singleton.mp h3]; exact Or.inl hm.2
  · intro c hc
    rw [hcs] at hc
    have hm := month_chars_digits m1 m2 hmc
    have hdd := day_chars_digits d1 d2 hdc
    rcases List.mem_append.mp hc with h1 | h1
    · exact Or.inl (hd c h1)
    · rcases List.mem_cons.mp h1 with h2 | h2
      · exact Or.inr h2
      · rcases List.mem_cons.mp h2 with h3 | h3
        · rw [h3]; exact Or.inl hm.1
        · rcases List.mem_cons.mp h3 with h4 | h4
          · rw [h4]; exact Or.inl hm.2
          · rcases List.mem_cons.mp h4 with h5 | h5
            · exact Or.inr h5
            · rcases List.mem_cons.mp h5 with h6 | h6
              · rw [h6]; exact Or.inl hdd.1
              · rw [List.mem_singleton.mp h6]; exact Or.inl hdd.2

theorem match_none_of_newline (cs : List Char) (h : '\n' ∈ cs) :
    match_date_regex cs = none := by
  cases hm : match_date_regex cs with
  | none => rfl
  | some r =>
    rcases match_chars_all cs r hm '\n' h with h1 | h1
    · exact absurd h1 (by decide)
    · exact absurd h1 (by decide)

/-- Stripping the one trailing newline that the `$` anchor may skip. -/
def strip_trailing_newline (cs : List Char) : List Char :=
  if cs.getLast? = some '\n' then cs.dropLast else cs

theorem mem_of_getLast_eq (cs : List Char) (c : Char)
    (h : cs.getLast? = some c) : c ∈ cs := by
  induction cs with
  | nil => simp at h
  | cons x xs ih =>
    cases xs with
    | nil =>
      simp only [List.getLast?_singleton, Option.some.injEq] at h
      simp [h]
    | cons y ys =>
      rw [List.getLast?_cons_cons] at h
      exact List.mem_cons_of_mem x (ih h)

theorem parse_date_eq_strip (s : String) :
    parse_date s = match_date_regex (strip_trailing_newline s.toList) := by
  cases hm : match_date_regex s.toList with
  | some r =>
    have hnl : ¬ s.toList.getLast? = some '\n' := by
      intro hl
      rw [match_none_of_newline s.toList (mem_of_getLast_eq _ _ hl)] at hm
      exact Option.noConfusion hm
    rw [strip_trailing_newline, if_neg hnl]
    simp only [String.toList] at hm
    simp [parse_date, hm]
  | none =>
    by_cases hl : s.toList.getLast? = some '\n'
    · rw [strip_trailing_newline, if_pos hl]
      simp only [String.toList] at hm hl
      simp [parse_date, hm, hl]
    · rw [strip_trailing_newline, if_neg hl]
      simp only [String.toList] at hm hl
      simp [parse_date, hm, hl]

theorem start_year_ok (y : Nat) (hy1 : 1 ≤ y) (hy2 : y ≤ 9999) :
    date_new y 1 1 = some ⟨y, 1, 1⟩ := by
  rw [date_new, if_pos]
  refine ⟨hy1, hy2, by omega, by omega, by omega, ?_⟩
  rw [days_in_month_jan]
  omega

theorem last_year_ok (y : Nat) (hy1 : 1 ≤ y) (hy2 : y ≤ 9999) :
    get_last_date_of_year y = some ⟨y, 12, 31⟩ := by
  rw [get_last_date_of_year, get_last_date_of_month, days_in_month_dec,
    date_new, if_pos]
  refine ⟨hy1, hy2, by omega, by omega, by omega, ?_⟩
  rw [days_in_month_dec]

theorem last_month_ok (y m : Nat) (hy1 : 1 ≤ y) (hy2 : y ≤ 9999)
    (hm1 : 1 ≤ m) (hm2 : m ≤ 12) :
    get_last_date_of_month y m = some ⟨y, m, days_in_month y m⟩ := by
  have hb := days_in_month_bounds y m
  rw [get_last_date_of_month, date_new, if_pos]
  exact ⟨hy1, hy2, hm1, hm2, by omega, le_refl _⟩

/-- Modelled from the spec side of claim C3, as amended: the flat
description of the accepted character strings — one of the three regex
shapes (a nonempty digit year; optionally a dash and a two-digit month of
value at most 12, including 00; optionally a further dash and a two-digit
day of value at most 31, including 00) — whose derived dates are
constructible: year between 1 and 9999 and, when both month and day are
nonzero, day at most the actual number of days of that month. -/
def ValidDateShape (cs : List Char) : Prop :=
  (cs ≠ [] ∧ (∀ c ∈ cs, is_digit_char c = true) ∧
    1 ≤ digitsToNat cs ∧ digitsToNat cs ≤ 9999) ∨
  (∃ ys m1 m2, cs = ys ++ '-' :: [m1, m2] ∧ ys ≠ [] ∧
    (∀ c ∈ ys, is_digit_char c = true) ∧
    1 ≤ digitsToNat ys ∧ digitsToNat ys ≤ 9999 ∧
    is_digit_char m1 = true ∧ is_digit_char m2 = true ∧
    digitsToNat [m1, m2] ≤ 12) ∨
  (∃ ys m1 m2 d1 d2, cs = ys ++ '-' :: m1 :: m2 :: '-' :: [d1, d2] ∧
    ys ≠ [] ∧ (∀ c ∈ ys, is_digit_char c = true) ∧
    1 ≤ digitsToNat ys ∧ digitsToNat ys ≤ 9999 ∧
    is_digit_char m1 = true ∧ is_digit_char m2 = true ∧
    digitsToNat [m1, m2] ≤ 12 ∧
    is_digit_char d1 = true ∧ is_digit_char d2 = true ∧
    digitsToNat [d1, d2] ≤ 31 ∧
    (digitsToNat [m1, m2] = 0 ∨ digitsToNat [d1, d2] = 0 ∨
      digitsToNat [d1, d2] ≤
        days_in_month (digitsToNat ys) (digitsToNat [m1, m2])))

/-- A date string is accepted when its characters, after the one trailing
newline the `$` anchor may skip, form a valid shape. -/
def AcceptedDateString (s : String) : Prop :=
  ValidDateShape (strip_trailing_newline s.toList)

theorem valid_shape_of_ok (s : String) (st en : PyDate)
    (h : resolve_date_range s none = Except.ok (st, en)) :
    AcceptedDateString s := by
  obtain ⟨y, m, d, hp, hdn, hen⟩ := resolve_one_ok_parts s st en h
  rw [parse_date_eq_strip] at hp
  rw [AcceptedDateString]
  rcases match_date_regex_cases _ _ hp with
    ⟨hne, hd, hr⟩ | ⟨ys, m1, m2, hcs, hne, hd, hmc, hr⟩ |
    ⟨ys, m1, m2, d1, d2, hcs, hne, hd, hmc, hdc, hr⟩
  · left
    rw [Prod.mk.injEq, Prod.mk.injEq] at hr
    obtain ⟨hy, hm2, hd2⟩ := hr
    subst hm2
    subst hd2
    have hc := (date_new_some_iff _ _ _ _).mp hdn
    refine ⟨hne, hd, ?_, ?_⟩
    · rw [← hy]; exact hc.1.1
    · rw [← hy]; exact hc.1.2.1
  · right; left
    rw [Prod.mk.injEq, Prod.mk.injEq] at hr
    obtain ⟨hy, hm2, hd2⟩ := hr
    subst hm2
    subst hd2
    have hc := (date_new_some_iff _ _ _ _).mp hdn
    have hmd := month_chars_digits m1 m2 hmc
    have hmle := (month_chars_iff_le m1 m2 hmd.1 hmd.2).mp hmc
    refine ⟨ys, m1, m2, hcs, hne, hd, ?_, ?_, hmd.1, hmd.2, hmle⟩
    · rw [← hy]; exact hc.1.1
    · rw [← hy]; exact hc.1.2.1
  · right; right
    rw [Prod.mk.injEq, Prod.mk.injEq] at hr
    obtain ⟨hy, hm2, hd2⟩ := hr
    subst hm2
    subst hd2
    have hc := (date_new_some_iff _ _ _ _).mp hdn
    have hmd := month_chars_digits m1 m2 hmc
    have hdd := day_chars_digits d1 d2 hdc
    have hmle := (month_chars_iff_le m1 m2 hmd.1 hmd.2).mp hmc
    have hdle := (day_chars_iff_le d1 d2 hdd.1 hdd.2).mp hdc
    refine ⟨ys, m1, m2, d1, d2, hcs, hne, hd, ?_, ?_, hmd.1, hmd.2, hmle,
      hdd.1, hdd.2, hdle, ?_⟩
    · rw [← hy]; exact hc.1.1
    · rw [← hy]; exact hc.1.2.1
    · by_cases hm0 : digitsToNat [m1, m2] = 0
      · exact Or.inl hm0
      · by_cases hd0 : digitsToNat [d1, d2] = 0
        · exact Or.inr (Or.inl hd0)
        · right; right
          obtain ⟨k, hk⟩ : ∃ k, digitsToNat [m1, m2] = k + 1 :=
            ⟨digitsToNat [m1, m2] - 1, by omega⟩
          obtain ⟨j, hj⟩ : ∃ j, digitsToNat [d1, d2] = j + 1 :=
            ⟨digitsToNat [d1, d2] - 1, by omega⟩
          rw [hk, hj] at hdn
          have hdn2 : date_new y (k + 1) (j + 1) = some st := hdn
          have hc2 := (date_new_some_iff _ _ _ _).mp hdn2
          rw [← hy, hk, hj]
          exact hc2.1.2.2.2.2.2

theorem ok_of_valid_shape (s : String) (hacc : AcceptedDateString s) :
    ∃ r, resolve_date_range s none = Except.ok r := by
  rw [AcceptedDateString] at hacc
  rcases hacc with ⟨hne, hd, hy1, hy2⟩ |
    ⟨ys, m1, m2, hcs, hne, hd, hy1, hy2, hm1, hm2, hmle⟩ |
    ⟨ys, m1, m2, d1, d2, hcs, hne, hd, hy1, hy2, hm1, hm2, hmle, hd1, hd2,
      hdle, hdisj⟩
  · have hp : parse_date s =
        some (digitsToNat (strip_trailing_newline s.toList), none, none) := by
      rw [parse_date_eq_strip]
      exact match_date_regex_year _ hne hd
    refine ⟨(⟨digitsToNat (strip_trailing_newline s.toList), 1, 1⟩,
      ⟨digitsToNat (strip_trailing_newline s.toList), 12, 31⟩),
      resolve_one_ok_build s (digitsToNat (strip_trailing_newline s.toList))
        none none _ _ hp ?_ ?_⟩
    · exact start_year_ok _ hy1 hy2
    · exact last_year_ok _ hy1 hy2
  · have hmc2 : month_chars m1 m2 = true :=
      (month_chars_iff_le m1 m2 hm1 hm2).mpr hmle
    have hp : parse_date s =
        some (digitsToNat ys, some (digitsToNat [m1, m2]), none) := by
      rw [parse_date_eq_strip, hcs]
      exact match_date_regex_ym ys m1 m2 hne hd hmc2
    cases hmv : digitsToNat [m1, m2] with
    | zero =>
      rw [hmv] at hp
      refine ⟨(⟨digitsToNat ys, 1, 1⟩, ⟨digitsToNat ys, 12, 31⟩),
        resolve_one_ok_build s (digitsToNat ys) (some 0) none _ _ hp ?_ ?_⟩
      · exact start_year_ok _ hy1 hy2
      · exact last_year_ok _ hy1 hy2
    | succ k =>
      rw [hmv] at hp hmle
      have hdn : date_new (digitsToNat ys) (k + 1) 1 =
          some ⟨digitsToNat ys, k + 1, 1⟩ := by
        have hb := days_in_month_bounds (digitsToNat ys) (k + 1)
        rw [date_new, if_pos]
        exact ⟨hy1, hy2, by omega, hmle, by omega, by omega⟩
      refine ⟨(⟨digitsToNat ys, k + 1, 1⟩,
        ⟨digitsToNat ys, k + 1, days_in_month (digitsToNat ys) (k + 1)⟩),
        resolve_one_ok_build s (digitsToNat ys) (some (k + 1)) none _ _
          hp ?_ ?_⟩
      · exact hdn
      · exact last_month_ok _ _ hy1 hy2 (by omega) hmle
  · have hmc2 : month_chars m1 m2 = true :=
      (month_chars_iff_le m1 m2 hm1 hm2).mpr hmle
    have hdc2 : day_chars d1 d2 = true :=
      (day_chars_iff_le d1 d2 hd1 hd2).mpr hdle
    have hp : parse_date s = some (digitsToNat ys,
        some (digitsToNat [m1, m2]), some (digitsToNat [d1, d2])) := by
      rw [parse_date_eq_strip, hcs]
      exact match_date_regex_ymd ys m1 m2 d1 d2 hne hd hmc2 hdc2
    cases hmv : digitsToNat [m1, m2] with
    | zero =>
      rw [hmv] at hp
      cases hdv : digitsToNat [d1, d2] with
      | zero =>
        rw [hdv] at hp
        refine ⟨(⟨digitsToNat ys, 1, 1⟩, ⟨digitsToNat ys, 12, 31⟩),
          resolve_one_ok_build s (digitsToNat ys) (some 0) (some 0) _ _
            hp ?_ ?_⟩
        · exact start_year_ok _ hy1 hy2
        · exact last_year_ok _ hy1 hy2
      | succ j =>
        rw [hdv] at hp hdle
        have hdn : date_new (digitsToNat ys) 1 (j + 1) =
            some ⟨digitsToNat ys, 1, j + 1⟩ := by
          rw [date_new, if_pos]
          refine ⟨hy1, hy2, by omega, by omega, by omega, ?_⟩
          rw [days_in_month_jan]
          omega
        refine ⟨(⟨digitsToNat ys, 1, j + 1⟩, ⟨digitsToNat ys, 12, 31⟩),
          resolve_one_ok_build s (digitsToNat ys) (some 0) (some (j + 1)) _ _
            hp ?_ ?_⟩
        · exact hdn
        · exact last_year_ok _ hy1 hy2
    | succ k =>
      rw [hmv] at hp hmle
      cases hdv : digitsToNat [d1, d2] with
      | zero =>
        rw [hdv] at hp
        have hdn : date_new (digitsToNat ys) (k + 1) 1 =
            some ⟨digitsToNat ys, k + 1, 1⟩ := by
          have hb := days_in_month_bounds (digitsToNat ys) (k + 1)
          rw [date_new, if_pos]
          exact ⟨hy1, hy2, by omega, hmle, by omega, by omega⟩
        refine ⟨(⟨digitsToNat ys, k + 1, 1⟩,
          ⟨digitsToNat ys, k + 1, days_in_month (digitsToNat ys) (k + 1)⟩),
          resolve_one_ok_build s (digitsToNat ys) (some (k + 1)) (some 0) _ _
            hp ?_ ?_⟩
        · exact hdn
        · exact last_month_ok _ _ hy1 hy2 (by omega) hmle
      | succ j =>
        rw [hmv, hdv] at hdisj
        rw [hdv] at hp
        have hdays : j + 1 ≤ days_in_month (digitsToNat ys) (k + 1) := by
          rcases hdisj with h0 | h0 | h0
          · exact absurd h0 (by omega)
          · exact absurd h0 (by omega)
          · exact h0
        have hdn : date_new (digitsToNat ys) (k + 1) (j + 1) =
            some ⟨digitsToNat ys, k + 1, j + 1⟩ := by
          rw [date_new, if_pos]
          exact ⟨hy1, hy2, by omega, hmle, by omega, hdays⟩
        refine ⟨(⟨digitsToNat ys, k + 1, j + 1⟩,
          ⟨digitsToNat ys, k + 1, j + 1⟩),
          resolve_one_ok_build s (digitsToNat ys) (some (k + 1))
            (some (j + 1)) _ _ hp ?_ ?_⟩
        · exact hdn
        · exact hdn

/-- C3 (amended): resolution of a single date string fails with
InvalidDateError exactly when the string is NOT accepted, where acceptance
means: one of the regex shapes — digits year, optional two-digit month
00–12 (00 included), optional two-digit day 00–31 (00 included), optional
one trailing newline — with year value 1–9999 and, when month and day are
both nonzero, day at most the actual length of that month. -/
theorem C3_failure_iff_not_accepted (s : String) :
    (∃ e, resolve_date_range s none = Except.error e) ↔
      ¬ AcceptedDateString s := by
  constructor
  · rintro ⟨e, he⟩ hacc
    obtain ⟨r, hr⟩ := ok_of_valid_shape s hacc
    rw [he] at hr
    exact Except.noConfusion hr
  · intro hnacc
    rcases resolve_one_classify s with ⟨r, hr⟩ | herr
    · obtain ⟨st, en⟩ := r
      exact absurd (valid_shape_of_ok s st en hr) hnacc
    · exact ⟨⟨s⟩, herr⟩

/-- C3 counterexample: the string "2023-00" — whose month component 00 is
outside the claim's 01–12 shape, so the claim says it must fail with
InvalidDateError — is in fact accepted: month 00 is falsy in Python, and
the range resolves as if only the year had been supplied. -/
theorem C3_counterexample_month_zero :
    resolve_date_range "2023-00" none =
      Except.ok (⟨2023, 1, 1⟩, ⟨2023, 12, 31⟩) := rfl


end TaimioReport
